import Mathlib

/-!
Verification of the ranking-and-navigation engine of the `hitta` launcher
(`src/hitta/__init__.py`).  Python strings are modelled as `List Char`
(`str.lower` as `Char.toLower` per character, `str.isalnum` as
`Char.isAlphanum`), and Python floats as exact rationals `ℚ` (every constant
used by the scorer — 0.5, 0.1, 1.0, 2.0 — is treated exactly).
-/

namespace Hitta

/-- Python `haystack.find(needle)` on strings: index of the first occurrence
of `needle` as a contiguous substring, `none` when absent. -/
def findSub (needle : List Char) : List Char → Option Nat
  | [] => if needle = [] then some 0 else none
  | h :: t =>
    if needle.isPrefixOf (h :: t) then some 0
    else (findSub needle t).map (· + 1)

/-- Python `needle in haystack` on strings. -/
def isSubstr (needle hay : List Char) : Bool :=
  (findSub needle hay).isSome

/-- `text[i].isalnum()` guarded by bounds (`false` out of range). -/
def alnumAt (text : List Char) (i : Nat) : Bool :=
  ((text[i]?).map Char.isAlphanum).getD false

/-- `text[i].isupper()` guarded by bounds (`false` out of range). -/
def upperAt (text : List Char) (i : Nat) : Bool :=
  ((text[i]?).map Char.isUpper).getD false

/-- Per-character score of a scattered match at text index `j` of original
query character `qo` (`__init__.py` lines 516-524): base 1.0, +0.5 for an
exact-case match, +2.0 at a word boundary, else +1.0 for an uppercase
matched character. -/
def charBase (text : List Char) (qo : Char) (j : Nat) : ℚ :=
  1 + (if text[j]? = some qo then 1/2 else 0) +
    (if j = 0 ∨ ¬ alnumAt text (j - 1) then 2
     else if upperAt text j then 1 else 0)

/-- Inner `while` loop of the scattered matcher (lines 511-540): scan the
remaining lowered text (`rem = tlow.drop i`) for query character `ql`,
returning the absolute index of the first match. -/
def findFromIdx (ql : Char) : List Char → Nat → Option Nat
  | [], _ => none
  | c :: rem, i => if c = ql then some i else findFromIdx ql rem (i + 1)

/-- Outer `while` loop of the scattered matcher (lines 505-547), state-passed:
query characters paired with their lowered forms, current `text_idx`,
accumulated `score`, `consecutive_bonus` and `gap_penalty`.  Returns
`(score, gap_penalty)` when the whole query is matched in order, `none`
otherwise.  After each query character but the last the code resets
`consecutive_bonus` to 0 (lines 546-547). -/
def scatterGo (text tlow : List Char) :
    List (Char × Char) → Nat → ℚ → ℚ → ℚ → Option (ℚ × ℚ)
  | [], _, score, _, gapPenalty => some (score, gapPenalty)
  | (qo, ql) :: rest, textIdx, score, consecutiveBonus, gapPenalty =>
    match findFromIdx ql (tlow.drop textIdx) textIdx with
    | none => none
    | some j =>
      let charScore := charBase text qo j
      let charScore :=
        if 0 < consecutiveBonus then charScore + consecutiveBonus else charScore
      let consecutiveBonus' :=
        if 0 < consecutiveBonus then consecutiveBonus + 1/2 else 1/2
      let gapSize := j - textIdx
      let gapPenalty :=
        if 0 < gapSize then gapPenalty + (gapSize : ℚ) * (1/10) else gapPenalty
      scatterGo text tlow rest (j + 1) (score + charScore)
        (if rest.isEmpty then consecutiveBonus' else 0) gapPenalty

/-- `AppSearchProvider._fuzzy_match_score` (lines 475-557). -/
def fuzzy_match_score (text query : List Char) : ℚ :=
  if query = [] ∨ text = [] then 0
  else if query.length = 1 ∧ 50 < text.length then 0
  else
    match findSub (query.map Char.toLower) (text.map Char.toLower) with
    | some pos =>
      100 + ((max 0 (20 - (pos : ℤ)) : ℤ) : ℚ) +
        (if pos = 0 ∨ ¬ alnumAt text (pos - 1) then 20 else 0)
    | none =>
      if 100 < text.length ∧ query.length < 3 then 0
      else
        match scatterGo text (text.map Char.toLower)
            (query.zip (query.map Char.toLower)) 0 0 0 0 with
        | none => 0
        | some (score, gapPenalty) =>
          let finalScore : ℚ :=
            max 0 (score - gapPenalty) +
              ((max 0 (10 - ((text.length / 2 : Nat) : ℤ)) : ℤ) : ℚ)
          if (query.length : ℚ) * (1/2) ≤ finalScore then finalScore else 0

/-- `scatterGo` with the `consecutive_bonus` machinery removed entirely.
Used to state what the scattered loop actually computes: because lines
546-547 reset `consecutive_bonus` to 0 before every query character after
the first, the bonus never reaches a match. -/
def scatterGoNC (text tlow : List Char) :
    List (Char × Char) → Nat → ℚ → ℚ → Option (ℚ × ℚ)
  | [], _, score, gapPenalty => some (score, gapPenalty)
  | (qo, ql) :: rest, textIdx, score, gapPenalty =>
    match findFromIdx ql (tlow.drop textIdx) textIdx with
    | none => none
    | some j =>
      let gapSize := j - textIdx
      let gapPenalty :=
        if 0 < gapSize then gapPenalty + (gapSize : ℚ) * (1/10) else gapPenalty
      scatterGoNC text tlow rest (j + 1) (score + charBase text qo j) gapPenalty

/-- `fuzzy_match_score` with the consecutive-match bonus removed. -/
def fuzzy_match_score_no_consecutive (text query : List Char) : ℚ :=
  if query = [] ∨ text = [] then 0
  else if query.length = 1 ∧ 50 < text.length then 0
  else
    match findSub (query.map Char.toLower) (text.map Char.toLower) with
    | some pos =>
      100 + ((max 0 (20 - (pos : ℤ)) : ℤ) : ℚ) +
        (if pos = 0 ∨ ¬ alnumAt text (pos - 1) then 20 else 0)
    | none =>
      if 100 < text.length ∧ query.length < 3 then 0
      else
        match scatterGoNC text (text.map Char.toLower)
            (query.zip (query.map Char.toLower)) 0 0 0 with
        | none => 0
        | some (score, gapPenalty) =>
          let finalScore : ℚ :=
            max 0 (score - gapPenalty) +
              ((max 0 (10 - ((text.length / 2 : Nat) : ℤ)) : ℤ) : ℚ)
          if (query.length : ℚ) * (1/2) ≤ finalScore then finalScore else 0

/-- Modelled from the spec's words for claim C1 (not from the code): the
scattered loop in which a consecutive-match bonus starts at 0.5, increases
by 0.5 for each immediately-following consecutive match, and is reset to 0
only when a query character's match is preceded by a gap. -/
def scatterGoSpecC1 (text tlow : List Char) :
    List (Char × Char) → Nat → ℚ → ℚ → ℚ → Option (ℚ × ℚ)
  | [], _, score, _, gapPenalty => some (score, gapPenalty)
  | (qo, ql) :: rest, textIdx, score, consecutiveBonus, gapPenalty =>
    match findFromIdx ql (tlow.drop textIdx) textIdx with
    | none => none
    | some j =>
      let gapSize := j - textIdx
      let consec := if 0 < gapSize then 0 else consecutiveBonus
      let charScore := charBase text qo j
      let charScore := if 0 < consec then charScore + consec else charScore
      let consec' := if 0 < consec then consec + 1/2 else (1/2 : ℚ)
      let gapPenalty :=
        if 0 < gapSize then gapPenalty + (gapSize : ℚ) * (1/10) else gapPenalty
      scatterGoSpecC1 text tlow rest (j + 1) (score + charScore) consec' gapPenalty

/-- Modelled from the spec's words for claim C1: the whole scorer with the
consecutive-match bonus behaving as the claim describes. -/
def fuzzy_match_score_specC1 (text query : List Char) : ℚ :=
  if query = [] ∨ text = [] then 0
  else if query.length = 1 ∧ 50 < text.length then 0
  else
    match findSub (query.map Char.toLower) (text.map Char.toLower) with
    | some pos =>
      100 + ((max 0 (20 - (pos : ℤ)) : ℤ) : ℚ) +
        (if pos = 0 ∨ ¬ alnumAt text (pos - 1) then 20 else 0)
    | none =>
      if 100 < text.length ∧ query.length < 3 then 0
      else
        match scatterGoSpecC1 text (text.map Char.toLower)
            (query.zip (query.map Char.toLower)) 0 0 0 0 with
        | none => 0
        | some (score, gapPenalty) =>
          let finalScore : ℚ :=
            max 0 (score - gapPenalty) +
              ((max 0 (10 - ((text.length / 2 : Nat) : ℤ)) : ℤ) : ℚ)
          if (query.length : ℚ) * (1/2) ≤ finalScore then finalScore else 0

/-! ## File search provider (`FileSearchProvider`, lines 310-421)

The provider is event-driven: a `search` call may spawn an external
`locate` process, and each spawned process later completes, invoking
`_on_locate_finished`.  We model spawned processes by consecutive ids, the
subprocess slot by `Option Nat`, and the results most recently delivered
through the callback by `lastCallback` (in the application this payload is
pushed into the root result list).  The filesystem facts consulted by
`_score_match` (`os.path.isdir`, the home directory) are environment
parameters. -/

/-- Filesystem environment for `_score_match`. -/
structure FsEnv where
  home : List Char
  isDir : List Char → Bool

/-- Python `str.strip()`: drop whitespace from both ends. -/
def stripStr (l : List Char) : List Char :=
  ((l.dropWhile Char.isWhitespace).reverse.dropWhile Char.isWhitespace).reverse

/-- `os.path.basename`: the part after the last path separator. -/
def basenameOf (p : List Char) : List Char :=
  ((p.splitOn '/').getLast?).getD []

/-- The hidden-component test of `_score_match` lines 414-419: some path
segment other than the leaf starts with a dot and is neither `.` nor `..`. -/
def hasHiddenNonLeaf (filepath : List Char) : Bool :=
  (filepath.splitOn '/').dropLast.any fun part =>
    ['.'].isPrefixOf part && !(part == ['.']) && !(part == ['.', '.'])

/-- `FileSearchProvider._score_match` (lines 380-421). -/
def score_match (env : FsEnv) (filepath search_text : List Char) : ℚ :=
  let basename := basenameOf filepath
  let searchLower := search_text.map Char.toLower
  let filepathLower := filepath.map Char.toLower
  let basenameLower := basename.map Char.toLower
  let score : ℚ := 0
  let score :=
    if basenameLower = searchLower then score + 100
    else if filepathLower = searchLower then score + 90
    else score
  let score :=
    if searchLower.isPrefixOf basenameLower then score + 50
    else if searchLower.isPrefixOf filepathLower then score + 40
    else score
  let score :=
    match findSub searchLower basenameLower with
    | some pos => score + 30 + (if pos < 20 then ((20 - pos : Nat) : ℚ) else 0)
    | none => if isSubstr searchLower filepathLower then score + 20 else score
  let pathDepth := filepath.count '/'
  let score := score + ((max 0 (10 - (pathDepth : ℤ)) : ℤ) : ℚ)
  let score := if env.home.isPrefixOf filepath then score + 5 else score
  let score := if env.isDir filepath then score + 2 else score
  let score :=
    if ¬ (['.'].isPrefixOf search_text) ∧ hasHiddenNonLeaf filepath then score - 10
    else score
  score

/-- Stable insertion into a list sorted by descending score: models one step
of Python's stable `list.sort(key=lambda x: x[0], reverse=True)` (line 363). -/
def insertDesc (x : ℚ × List Char) :
    List (ℚ × List Char) → List (ℚ × List Char)
  | [] => [x]
  | y :: ys => if y.1 ≤ x.1 then x :: y :: ys else y :: insertDesc x ys

/-- Python's stable descending sort by score (line 363). -/
def sortDesc : List (ℚ × List Char) → List (ℚ × List Char)
  | [] => []
  | x :: xs => insertDesc x (sortDesc xs)

/-- State of a `FileSearchProvider` together with the results last delivered
through its callback. -/
structure FileSearchState where
  currentSubprocess : Option Nat
  nextId : Nat
  lastCallback : Option (List (List Char))
deriving DecidableEq

/-- Fresh provider: no subprocess, callback never invoked. -/
def initFileSearchState : FileSearchState :=
  { currentSubprocess := none, nextId := 0, lastCallback := none }

/-- `FileSearchProvider.cancel_search` (lines 342-346): force-exit the
current subprocess, if any, and clear the slot. -/
def cancel_search (st : FileSearchState) : FileSearchState :=
  { st with currentSubprocess := none }

/-- `FileSearchProvider.search` (lines 317-340).  `spawnOk` tells whether
spawning the external process succeeds; on failure the provider reports an
empty result set. -/
def file_search (st : FileSearchState) (query : List Char) (spawnOk : Bool) :
    FileSearchState :=
  if query.length < 2 then { st with lastCallback := some [] }
  else
    let st := cancel_search st
    if spawnOk then
      { st with currentSubprocess := some st.nextId, nextId := st.nextId + 1 }
    else
      { st with lastCallback := some [] }

/-- `FileSearchProvider._on_locate_finished` (lines 348-378).  `res` is the
outcome of `communicate_utf8_finish`: `none` when it (or any processing
step) raises, otherwise `some (success, stdout)`.  Note that the handler
receives the subprocess and its query but consults neither the current
subprocess slot nor any generation tag before delivering results; the
`finally` block clears the slot unconditionally. -/
def on_locate_finished (env : FsEnv) (query : List Char)
    (res : Option (Bool × List Char)) (st : FileSearchState) : FileSearchState :=
  match res with
  | none => { st with lastCallback := some [], currentSubprocess := none }
  | some (success, stdout) =>
    if success ∧ stdout ≠ [] then
      let lines := (stripStr stdout).splitOn '\n'
      let results := (lines.filter (fun l => stripStr l ≠ [])).map
        (fun l => (score_match env l query, l))
      let sorted := sortDesc results
      { st with lastCallback := some ((sorted.take 50).map Prod.snd),
                currentSubprocess := none }
    else
      { st with lastCallback := some [], currentSubprocess := none }

/-- External events driving one `FileSearchProvider` instance: a `search`
call, or the asynchronous completion of the process spawned with id `id`
for query `query`. -/
inductive FsEvent where
  | search (query : List Char) (spawnOk : Bool)
  | finish (id : Nat) (query : List Char) (res : Option (Bool × List Char))
deriving DecidableEq

/-- One event step of the provider.  A completion is handled by
`_on_locate_finished` whatever its `id` — the code has no staleness
check. -/
def fsStep (env : FsEnv) (st : FileSearchState) : FsEvent → FileSearchState
  | .search q ok => file_search st q ok
  | .finish _ q res => on_locate_finished env q res st

/-- Run a sequence of events from a fresh provider. -/
def fsRun (env : FsEnv) (evs : List FsEvent) : FileSearchState :=
  evs.foldl (fsStep env) initFileSearchState

/-! ## Result/action navigation stack (`ResultList`, `ResultStack`,
lines 656-863)

A `ResultList` is modelled by its list-store contents and the single
selection; a `ResultStack` by the parallel lists `_stack` and
`_search_states` of the source (root level first, top of stack last).
Items carry the two text fields the engine reads. -/

/-- The displayable fields of an `Action`/`SearchResult`. -/
structure RItem where
  name : List Char
  description : List Char
deriving DecidableEq

/-- Model of a `ResultList`: list-store contents plus single selection. -/
structure ResultListM where
  items : List RItem
  selected : Option Nat
deriving DecidableEq

/-- `ResultList.set_items` (lines 718-722): splice in the new items and
select index 0 when the list is non-empty (no selection otherwise). -/
def set_items (_l : ResultListM) (items : List RItem) : ResultListM :=
  { items := items,
    selected := if 0 < items.length then some 0 else none }

/-- Model of a `ResultStack`: the widget stack and the parallel
`(query, original_items)` search states. -/
structure ResultStackM where
  stack : List ResultListM
  searchStates : List (List Char × List RItem)
deriving DecidableEq

/-- `ResultStack.__init__` (lines 779-785): a single root level showing
search results, with empty initial search state. -/
def initResultStack : ResultStackM :=
  { stack := [{ items := [], selected := none }], searchStates := [([], [])] }

/-- `ResultStack.push_actions` (lines 832-841): no-op on an empty action
list, otherwise append a fresh action level (items set, first selected)
and its `("", actions)` search state. -/
def push_actions (st : ResultStackM) (actions : List RItem) : ResultStackM :=
  if actions.length = 0 then st
  else
    { stack := st.stack ++ [set_items { items := [], selected := none } actions],
      searchStates := st.searchStates ++ [([], actions)] }

/-- `ResultStack.pop_stack` (lines 843-853): refuse at depth 1, otherwise
drop the top level (and its search state) and report success. -/
def pop_stack (st : ResultStackM) : ResultStackM × Bool :=
  if st.stack.length ≤ 1 then (st, false)
  else
    ({ stack := st.stack.dropLast, searchStates := st.searchStates.dropLast },
      true)

/-- `ResultStack.search_current_level` (lines 794-819): at the root level do
nothing; otherwise re-derive the top level's displayed items from its
stored original items — all of them for an empty query, else those whose
name or description contains the query case-insensitively — and record the
query in the top search state. -/
def search_current_level (st : ResultStackM) (query : List Char) : ResultStackM :=
  if st.stack.length ≤ 1 then st
  else
    match st.searchStates.getLast?, st.stack.getLast? with
    | some (_, original_items), some current_list =>
      let newItems :=
        if query = [] then original_items
        else
          let queryLower := query.map Char.toLower
          original_items.filter fun item =>
            isSubstr queryLower (item.name.map Char.toLower) ||
              isSubstr queryLower (item.description.map Char.toLower)
      { stack := st.stack.dropLast ++ [set_items current_list newItems],
        searchStates := st.searchStates.dropLast ++ [(query, original_items)] }
    | _, _ => st

/-- The push/pop operations of claims C6 and C9. -/
inductive StackOp where
  | push (actions : List RItem)
  | pop
deriving DecidableEq

/-- Apply one push/pop operation (the Boolean result of `pop_stack` is
discarded). -/
def applyOp (st : ResultStackM) : StackOp → ResultStackM
  | .push actions => push_actions st actions
  | .pop => (pop_stack st).1

/-! ## Theorems about the fuzzy scorer -/

lemma findSub_isInfix {needle hay : List Char} {p : Nat}
    (h : findSub needle hay = some p) : needle <:+: hay := by
  induction hay generalizing p with
  | nil =>
    unfold findSub at h
    split at h
    · simp_all
    · simp at h
  | cons c rest ih =>
    unfold findSub at h
    split at h
    next hpre =>
      exact ((List.isPrefixOf_iff_prefix).mp hpre).isInfix
    next =>
      cases hr : findSub needle rest with
      | none => rw [hr] at h; simp at h
      | some p' => exact List.infix_cons (ih hr)

lemma findFromIdx_mem {ql : Char} {rem : List Char} {i j : Nat}
    (h : findFromIdx ql rem i = some j) :
    ∃ k, rem[k]? = some ql ∧ j = i + k := by
  induction rem generalizing i with
  | nil => simp [findFromIdx] at h
  | cons c rest ih =>
    unfold findFromIdx at h
    split at h
    next hc =>
      refine ⟨0, ?_, ?_⟩ <;> simp_all
    next =>
      obtain ⟨k, hget, hj⟩ := ih h
      exact ⟨k + 1, by simpa using hget, by omega⟩

lemma scatterGo_sublist (text tlow : List Char) (qs : List (Char × Char)) :
    ∀ (tIdx : Nat) (s c g : ℚ) (r : ℚ × ℚ),
      scatterGo text tlow qs tIdx s c g = some r →
      List.Sublist (qs.map Prod.snd) (tlow.drop tIdx) := by
  induction qs with
  | nil => intro tIdx s c g r _; simp
  | cons p rest ih =>
    intro tIdx s c g r h
    obtain ⟨qo, ql⟩ := p
    unfold scatterGo at h
    cases hf : findFromIdx ql (tlow.drop tIdx) tIdx with
    | none => rw [hf] at h; simp at h
    | some j =>
      rw [hf] at h
      simp only at h
      have hsub := ih _ _ _ _ _ h
      obtain ⟨k, hget, hj⟩ := findFromIdx_mem hf
      obtain ⟨hk, hEq⟩ := List.getElem?_eq_some.mp hget
      have hdropj : tlow.drop (j + 1) = (tlow.drop tIdx).drop (k + 1) := by
        rw [List.drop_drop]
        congr 1
        omega
      rw [hdropj] at hsub
      have hdecomp : tlow.drop tIdx =
          (tlow.drop tIdx).take k ++ (ql :: (tlow.drop tIdx).drop (k + 1)) := by
        conv_lhs => rw [← List.take_append_drop k (tlow.drop tIdx)]
        rw [List.drop_eq_getElem_cons hk, hEq]
      rw [hdecomp]
      simp only [List.map_cons]
      exact (hsub.cons₂ ql).trans
        (List.sublist_append_right ((tlow.drop tIdx).take k) _)

/-- C3: if the characters of the query do not appear in order as a
case-insensitive subsequence of the text, the fuzzy scorer returns 0. -/
theorem fuzzy_zero_of_not_subsequence (text query : List Char)
    (h : ¬ List.Sublist (query.map Char.toLower) (text.map Char.toLower)) :
    fuzzy_match_score text query = 0 := by
  unfold fuzzy_match_score
  split
  · rfl
  split
  · rfl
  cases hfind : findSub (query.map Char.toLower) (text.map Char.toLower) with
  | some pos =>
    exact absurd (findSub_isInfix hfind).sublist h
  | none =>
    simp only [hfind]
    split
    · rfl
    cases hsc : scatterGo text (text.map Char.toLower)
        (query.zip (query.map Char.toLower)) 0 0 0 0 with
    | none => simp [hsc]
    | some r =>
      exfalso
      have hsub := scatterGo_sublist text (text.map Char.toLower)
        (query.zip (query.map Char.toLower)) 0 0 0 0 r hsc
      rw [List.map_snd_zip query (query.map Char.toLower) (by simp),
        List.drop_zero] at hsub
      exact h hsub

/-- C3 witness: the query fx is not an in-order subsequence of Files, and
its score against Files is 0. -/
theorem fuzzy_zero_of_not_subsequence_witness :
    fuzzy_match_score ['F', 'i', 'l', 'e', 's'] ['f', 'x'] = 0 :=
  fuzzy_zero_of_not_subsequence ['F', 'i', 'l', 'e', 's'] ['f', 'x'] (by decide)

/-- C2: for non-empty query and text with a case-folded substring hit (and
the text at most 50 characters when the query has length 1), the scorer
returns exactly 100 plus max(0, 20 - position) plus 20 when the match is at
index 0 or preceded by a non-alphanumeric character; in particular at least
100. -/
theorem fuzzy_substring_fast_path (query text : List Char) (pos : Nat)
    (hq : query ≠ []) (ht : text ≠ [])
    (hfind : findSub (query.map Char.toLower) (text.map Char.toLower) = some pos)
    (hlen : query.length = 1 → text.length ≤ 50) :
    fuzzy_match_score text query =
      100 + ((max 0 (20 - (pos : ℤ)) : ℤ) : ℚ) +
        (if pos = 0 ∨ ¬ alnumAt text (pos - 1) then 20 else 0) ∧
    100 ≤ fuzzy_match_score text query := by
  have h1 : ¬(query = [] ∨ text = []) := by
    rintro (hh | hh)
    · exact hq hh
    · exact ht hh
  have h2 : ¬(query.length = 1 ∧ 50 < text.length) := by
    rintro ⟨ha, hb⟩
    exact absurd (hlen ha) (by omega)
  have heq : fuzzy_match_score text query =
      100 + ((max 0 (20 - (pos : ℤ)) : ℤ) : ℚ) +
        (if pos = 0 ∨ ¬ alnumAt text (pos - 1) then 20 else 0) := by
    unfold fuzzy_match_score
    rw [if_neg h1, if_neg h2, hfind]
  refine ⟨heq, ?_⟩
  rw [heq]
  have hmax : (0 : ℚ) ≤ ((max 0 (20 - (pos : ℤ)) : ℤ) : ℚ) := by
    exact_mod_cast le_max_left (0 : ℤ) (20 - (pos : ℤ))
  have hif : (0 : ℚ) ≤
      (if pos = 0 ∨ ¬ alnumAt text (pos - 1) then (20 : ℚ) else 0) := by
    split <;> norm_num
  linarith

/-- C2 witness: fire against Firefox matches as a substring at position 0
and scores 140. -/
theorem fuzzy_substring_fast_path_witness :
    fuzzy_match_score ['F', 'i', 'r', 'e', 'f', 'o', 'x'] ['f', 'i', 'r', 'e'] = 140 ∧
    100 ≤ fuzzy_match_score ['F', 'i', 'r', 'e', 'f', 'o', 'x'] ['f', 'i', 'r', 'e'] := by
  have h := fuzzy_substring_fast_path ['f', 'i', 'r', 'e']
    ['F', 'i', 'r', 'e', 'f', 'o', 'x'] 0 (by decide) (by decide) (by decide)
    (by decide)
  refine ⟨?_, h.2⟩
  rw [h.1]
  norm_num

/-- C4: whenever the scorer reaches the scattered path and the whole query
matches, the result is max(0, score - gap_penalty) + max(0, 10 - len(text)/2)
if that quantity reaches the 0.5-per-query-character threshold, and 0
otherwise. -/
theorem fuzzy_scatter_final_formula (query text : List Char) (s g : ℚ)
    (hq : query ≠ []) (ht : text ≠ [])
    (h50 : ¬(query.length = 1 ∧ 50 < text.length))
    (hsub : findSub (query.map Char.toLower) (text.map Char.toLower) = none)
    (h100 : ¬(100 < text.length ∧ query.length < 3))
    (hsc : scatterGo text (text.map Char.toLower)
      (query.zip (query.map Char.toLower)) 0 0 0 0 = some (s, g)) :
    ((query.length : ℚ) * (1/2) ≤
        max 0 (s - g) + ((max 0 (10 - ((text.length / 2 : Nat) : ℤ)) : ℤ) : ℚ) →
      fuzzy_match_score text query =
        max 0 (s - g) + ((max 0 (10 - ((text.length / 2 : Nat) : ℤ)) : ℤ) : ℚ)) ∧
    (max 0 (s - g) + ((max 0 (10 - ((text.length / 2 : Nat) : ℤ)) : ℤ) : ℚ) <
        (query.length : ℚ) * (1/2) →
      fuzzy_match_score text query = 0) := by
  have h1 : ¬(query = [] ∨ text = []) := by
    rintro (hh | hh)
    · exact hq hh
    · exact ht hh
  have heq : fuzzy_match_score text query =
      if (query.length : ℚ) * (1/2) ≤
          max 0 (s - g) + ((max 0 (10 - ((text.length / 2 : Nat) : ℤ)) : ℤ) : ℚ)
      then max 0 (s - g) + ((max 0 (10 - ((text.length / 2 : Nat) : ℤ)) : ℤ) : ℚ)
      else 0 := by
    unfold fuzzy_match_score
    rw [if_neg h1, if_neg h50, hsub]
    simp only
    rw [if_neg h100, hsc]
  constructor
  · intro hge
    rw [heq, if_pos hge]
  · intro hlt
    rw [heq, if_neg (not_le.mpr hlt)]

/-- C4 witness: the scattered match of abd against abcd accumulates 6.5 with
gap penalty 0.1, giving 6.4 + 8 = 14.4, above the threshold 1.5. -/
theorem fuzzy_scatter_final_formula_witness :
    fuzzy_match_score ['a', 'b', 'c', 'd'] ['a', 'b', 'd'] = 72/5 := by
  have h := fuzzy_scatter_final_formula ['a', 'b', 'd'] ['a', 'b', 'c', 'd']
    (13/2) (1/10) (by decide) (by decide) (by decide) (by decide) (by decide)
    (by simp +decide [scatterGo, findFromIdx, charBase, alnumAt, upperAt]
        norm_num)
  rw [h.1 (by norm_num [max_def])]
  norm_num [max_def]

lemma scatterGo_consec_zero (text tlow : List Char) (qs : List (Char × Char)) :
    ∀ (tIdx : Nat) (s g : ℚ),
      scatterGo text tlow qs tIdx s 0 g = scatterGoNC text tlow qs tIdx s g := by
  induction qs with
  | nil => intro tIdx s g; rfl
  | cons p rest ih =>
    intro tIdx s g
    obtain ⟨qo, ql⟩ := p
    unfold scatterGo scatterGoNC
    cases hf : findFromIdx ql (tlow.drop tIdx) tIdx with
    | none => rfl
    | some j =>
      simp only [lt_irrefl, if_neg, ite_false]
      cases rest with
      | nil => rfl
      | cons p' rest' =>
        simp only [List.isEmpty_cons, ite_false, Bool.false_eq_true]
        exact ih _ _ _

/-- C1 counterexample: against the text abcd, the query abd matches a and b
consecutively, so under the claim b receives a consecutive-match bonus of
0.5 and the claim-described scorer yields 14.9; the code yields 14.4 — the
bonus is never applied. -/
theorem fuzzy_consecutive_bonus_counterexample :
    fuzzy_match_score_specC1 ['a', 'b', 'c', 'd'] ['a', 'b', 'd'] = 149/10 ∧
    fuzzy_match_score ['a', 'b', 'c', 'd'] ['a', 'b', 'd'] = 72/5 ∧
    (149/10 : ℚ) ≠ 72/5 := by
  refine ⟨?_, ?_, by norm_num⟩
  · simp +decide [fuzzy_match_score_specC1, scatterGoSpecC1, findFromIdx, findSub,
      charBase, alnumAt, upperAt, List.isPrefixOf]
    norm_num
  · simp +decide [fuzzy_match_score, scatterGo, findFromIdx, findSub,
      charBase, alnumAt, upperAt, List.isPrefixOf]
    norm_num

/-- C1 amended: the code resets the consecutive-bonus counter to 0 before
every query character after the first, whether or not the match was
preceded by a gap, so no matched character ever receives a consecutive-match
bonus: the scorer coincides with the scorer stripped of that bonus. -/
theorem fuzzy_consecutive_bonus_never_applied (text query : List Char) :
    fuzzy_match_score text query = fuzzy_match_score_no_consecutive text query := by
  unfold fuzzy_match_score fuzzy_match_score_no_consecutive
  rw [scatterGo_consec_zero]

/-! ## Theorems about the navigation stack -/

lemma applyOp_depth (st : ResultStackM) (op : StackOp)
    (h : 1 ≤ st.stack.length) : 1 ≤ (applyOp st op).stack.length := by
  cases op with
  | push actions =>
    simp only [applyOp, push_actions]
    split
    · exact h
    · simp
  | pop =>
    simp only [applyOp, pop_stack]
    split
    next hle => exact h
    next hgt =>
      simp only [List.length_dropLast]
      omega

lemma foldl_applyOp_depth (ops : List StackOp) (st : ResultStackM)
    (h : 1 ≤ st.stack.length) : 1 ≤ (ops.foldl applyOp st).stack.length := by
  induction ops generalizing st with
  | nil => exact h
  | cons op ops ih => exact ih _ (applyOp_depth st op h)

/-- C6: any sequence of push/pop operations leaves the stack depth at
least 1; popping at depth 1 reports failure and leaves the state unchanged;
pushing an empty action list is a no-op. -/
theorem resultStack_depth_invariant (ops : List StackOp) (st : ResultStackM)
    (h : st.stack.length = 1) :
    1 ≤ (ops.foldl applyOp initResultStack).stack.length ∧
    pop_stack st = (st, false) ∧
    ∀ st' : ResultStackM, push_actions st' [] = st' := by
  refine ⟨foldl_applyOp_depth ops initResultStack (by simp [initResultStack]),
    ?_, ?_⟩
  · simp [pop_stack, h]
  · intro st'
    simp [push_actions]

/-- C6 witness: popping twice then pushing nothing from the fresh stack. -/
theorem resultStack_depth_invariant_witness :
    1 ≤ (([StackOp.pop, StackOp.push [], StackOp.pop].foldl applyOp
      initResultStack)).stack.length ∧
    pop_stack initResultStack = (initResultStack, false) ∧
    ∀ st' : ResultStackM, push_actions st' [] = st' :=
  resultStack_depth_invariant [StackOp.pop, StackOp.push [], StackOp.pop]
    initResultStack (by simp [initResultStack])

lemma head?_append_left {α : Type} (l l₂ : List α) (h : l ≠ []) :
    (l ++ l₂).head? = l.head? := by
  cases l with
  | nil => exact absurd rfl h
  | cons a t => rfl

lemma head?_dropLast {α : Type} (l : List α) (h : 2 ≤ l.length) :
    l.dropLast.head? = l.head? ∧ l.dropLast ≠ [] := by
  match l, h with
  | a :: b :: rest, _ =>
    constructor
    · rfl
    · simp

lemma applyOp_head (st : ResultStackM) (op : StackOp) (h : st.stack ≠ []) :
    (applyOp st op).stack.head? = st.stack.head? ∧ (applyOp st op).stack ≠ [] := by
  cases op with
  | push actions =>
    simp only [applyOp, push_actions]
    split
    · exact ⟨rfl, h⟩
    · refine ⟨head?_append_left _ _ h, ?_⟩
      simp
  | pop =>
    simp only [applyOp, pop_stack]
    split
    next hle => exact ⟨rfl, h⟩
    next hgt => exact head?_dropLast st.stack (by omega)

/-- C9: push/pop operations never touch the root level: after any sequence
of pushes and pops — in particular pushing n action levels and popping n
times — the root level (its displayed items included) is exactly what it
was before. -/
theorem resultStack_root_frame (ops : List StackOp) (st : ResultStackM)
    (h : st.stack ≠ []) :
    (ops.foldl applyOp st).stack.head? = st.stack.head? := by
  induction ops generalizing st with
  | nil => rfl
  | cons op ops ih =>
    obtain ⟨h1, h2⟩ := applyOp_head st op h
    rw [List.foldl_cons, ih _ h2, h1]

/-- C9 witness: push two action levels and pop twice from a root holding one
result; the root level is unchanged. -/
theorem resultStack_root_frame_witness :
    (([StackOp.push [{ name := ['a'], description := [] }],
       StackOp.push [{ name := ['b'], description := [] }],
       StackOp.pop, StackOp.pop].foldl applyOp
        { stack := [{ items := [{ name := ['r'], description := [] }],
                      selected := some 0 }],
          searchStates := [([], [])] }).stack.head?) =
      some { items := [{ name := ['r'], description := [] }],
             selected := some 0 } := by
  rw [resultStack_root_frame _ _ (by simp)]
  rfl

lemma search_current_level_concat (stack0 : List ResultListM)
    (lvl : ResultListM) (states0 : List (List Char × List RItem))
    (cq : List Char) (orig : List RItem) (q : List Char) (h0 : stack0 ≠ []) :
    search_current_level
        { stack := stack0 ++ [lvl], searchStates := states0 ++ [(cq, orig)] } q =
      { stack := stack0 ++ [set_items lvl
          (if q = [] then orig
           else
             orig.filter fun item =>
               isSubstr (q.map Char.toLower) (item.name.map Char.toLower) ||
                 isSubstr (q.map Char.toLower) (item.description.map Char.toLower))],
        searchStates := states0 ++ [(q, orig)] } := by
  have hlen : ¬(stack0 ++ [lvl]).length ≤ 1 := by
    have h0' : stack0.length ≠ 0 := fun hh => h0 (List.length_eq_zero.mp hh)
    simp only [List.length_append, List.length_cons, List.length_nil]
    omega
  unfold search_current_level
  rw [if_neg hlen, List.getLast?_concat, List.getLast?_concat]
  simp only [List.dropLast_concat]

/-- C7: pushing a non-empty action list, filtering by any query, then
filtering by the empty query displays exactly the original actions in
order; filtering twice by the same query gives the same state as filtering
once. -/
theorem resultStack_filter_roundtrip (st : ResultStackM) (acts : List RItem)
    (q : List Char) (hacts : acts ≠ []) (hst : st.stack ≠ []) :
    ((search_current_level (search_current_level (push_actions st acts) q)
        []).stack.getLast?).map (fun l => l.items) = some acts ∧
    search_current_level (search_current_level (push_actions st acts) q) q =
      search_current_level (push_actions st acts) q := by
  have hlen : ¬ acts.length = 0 := by
    simpa [List.length_eq_zero] using hacts
  have hpush : push_actions st acts =
      { stack := st.stack ++ [set_items { items := [], selected := none } acts],
        searchStates := st.searchStates ++ [([], acts)] } := by
    unfold push_actions
    rw [if_neg hlen]
  constructor
  · rw [hpush, search_current_level_concat _ _ _ _ _ _ hst,
      search_current_level_concat _ _ _ _ _ _ hst]
    simp [List.getLast?_concat, set_items]
  · rw [hpush, search_current_level_concat _ _ _ _ _ _ hst,
      search_current_level_concat _ _ _ _ _ _ hst]
    simp [set_items]

/-- C7 witness: push two actions, filter by b, then clear the filter; the
original actions reappear, and filtering by b twice equals filtering once. -/
theorem resultStack_filter_roundtrip_witness :
    ((search_current_level (search_current_level (push_actions initResultStack
        [{ name := ['a'], description := [] },
         { name := ['b'], description := [] }]) ['b'])
        []).stack.getLast?).map (fun l => l.items) =
      some [{ name := ['a'], description := [] },
            { name := ['b'], description := [] }] ∧
    search_current_level (search_current_level (push_actions initResultStack
        [{ name := ['a'], description := [] },
         { name := ['b'], description := [] }]) ['b']) ['b'] =
      search_current_level (push_actions initResultStack
        [{ name := ['a'], description := [] },
         { name := ['b'], description := [] }]) ['b'] :=
  resultStack_filter_roundtrip initResultStack
    [{ name := ['a'], description := [] }, { name := ['b'], description := [] }]
    ['b'] (by simp) (by simp [initResultStack])

/-- C10: set_items selects the first item whenever the new item list is
non-empty and selects nothing when it is empty; in particular the action
level created by push_actions has its first action selected. -/
theorem set_items_selects_first (l : ResultListM) (items : List RItem)
    (st : ResultStackM) (acts : List RItem) (hitems : items ≠ [])
    (hacts : acts ≠ []) :
    (set_items l items).selected = some 0 ∧
    (set_items l []).selected = none ∧
    ((push_actions st acts).stack.getLast?).map (fun lv => lv.selected) =
      some (some 0) := by
  have hpos : 0 < items.length := List.length_pos.mpr hitems
  have hlen : ¬ acts.length = 0 := by
    simpa [List.length_eq_zero] using hacts
  refine ⟨by simp [set_items, hpos], by simp [set_items], ?_⟩
  unfold push_actions
  rw [if_neg hlen, List.getLast?_concat]
  simp [set_items, Nat.pos_of_ne_zero hlen]

/-- C10 witness: a singleton item list gets index 0 selected, the empty list
gets none, and a pushed action level starts with its first action
selected. -/
theorem set_items_selects_first_witness :
    (set_items { items := [], selected := none }
      [{ name := ['a'], description := [] }]).selected = some 0 ∧
    (set_items { items := [], selected := none } []).selected = none ∧
    ((push_actions initResultStack
        [{ name := ['a'], description := [] }]).stack.getLast?).map
      (fun lv => lv.selected) = some (some 0) :=
  set_items_selects_first { items := [], selected := none }
    [{ name := ['a'], description := [] }] initResultStack
    [{ name := ['a'], description := [] }] (by simp) (by simp)

/-! ## Theorems about the file search provider -/

/-- A concrete filesystem environment: home directory `/h`, no
directories. -/
def fsEnvTest : FsEnv := { home := ['/', 'h'], isDir := fun _ => false }

/-- C5 (violated by the code): search A (`aa`) spawns process 0; search B
(`bb`) force-exits process 0 and spawns process 1; process 1 completes and
B's results `/b` are displayed; then process 0's completion arrives late
(a force-exited process still completes its `communicate` with whatever
stdout it buffered, here `/a`).  `_on_locate_finished` has no staleness
check, so A's results are delivered and the final displayed results are
`/a`, not B's `/b` as the claim requires. -/
theorem fileSearch_stale_delivery_bug :
    (fsRun fsEnvTest
      [FsEvent.search ['a', 'a'] true, FsEvent.search ['b', 'b'] true,
       FsEvent.finish 1 ['b', 'b'] (some (true, ['/', 'b'])),
       FsEvent.finish 0 ['a', 'a'] (some (true, ['/', 'a']))]).lastCallback
      = some [['/', 'a']] ∧
    (some [['/', 'a']] : Option (List (List Char))) ≠ some [['/', 'b']] := by
  constructor
  · decide
  · decide

/-- C8: a query shorter than 2 characters immediately yields an empty
result set with the provider state otherwise untouched (no process
spawned); a spawn failure reports empty; a completion whose processing
raises, or that reports failure, or that carries no usable output (empty or
all-blank stdout) reports empty.  No failure escapes: every case invokes
the callback with `[]`. -/
theorem fileSearch_failure_empty (env : FsEnv) (st : FileSearchState)
    (q : List Char) (pid : Nat) (s : List Char) :
    (q.length < 2 → ∀ ok, fsStep env st (.search q ok) =
      { st with lastCallback := some [] }) ∧
    (2 ≤ q.length → fsStep env st (.search q false) =
      { st with currentSubprocess := none, lastCallback := some [] }) ∧
    (fsStep env st (.finish pid q none)).lastCallback = some [] ∧
    (fsStep env st (.finish pid q (some (false, s)))).lastCallback = some [] ∧
    (fsStep env st (.finish pid q (some (true, [])))).lastCallback = some [] ∧
    (((stripStr s).splitOn '\n').filter (fun l => stripStr l ≠ []) = [] →
      (fsStep env st (.finish pid q (some (true, s)))).lastCallback = some []) := by
  refine ⟨?_, ?_, rfl, ?_, ?_, ?_⟩
  · intro hq ok
    simp [fsStep, file_search, hq]
  · intro hq
    have : ¬ q.length < 2 := by omega
    simp [fsStep, file_search, cancel_search, this]
  · simp [fsStep, on_locate_finished]
  · simp [fsStep, on_locate_finished]
  · intro hblank
    by_cases hs : s = []
    · simp [fsStep, on_locate_finished, hs]
    · simp only [fsStep, on_locate_finished, hs, ne_eq, not_false_iff,
        and_true, if_true, hblank, List.map_nil, sortDesc, List.take_nil]

/-- C8 witness: a one-character query is rejected without touching the
subprocess slot, and an exceptional completion reports an empty result
set. -/
theorem fileSearch_failure_empty_witness :
    fsStep fsEnvTest initFileSearchState (.search ['a'] true) =
      { initFileSearchState with lastCallback := some [] } ∧
    (fsStep fsEnvTest initFileSearchState (.finish 0 ['a'] none)).lastCallback
      = some [] := by
  have h := fileSearch_failure_empty fsEnvTest initFileSearchState ['a'] 0 []
  exact ⟨h.1 (by decide) true, h.2.2.1⟩

end Hitta
